import Mathlib

/-!
# Verification of the Actions engine of lightning-node-operator

This file gives a shallow embedding of `src/Actions.ts` (the `Actions` class
suggesting balance and fee actions for an LND routing node) and proves /
refutes the frozen claims about it.

Modelling conventions:
* JavaScript numbers are modelled as `ℚ`.  `Math.round x` is `⌊x + 1/2⌋`
  (round half towards +∞, as in JS), `Math.floor` is `Int.floor`.
* Division by zero in `ℚ` yields `0`; wherever the source relies on
  `Number.isNaN` / `Number.isFinite` of a quotient, the embedding tests the
  denominator for zero instead (each such spot carries a comment).  Token
  totals and fees are nonnegative in the data model, so the two readings
  agree on well-formed data.
* ISO-8601 timestamps are modelled as milliseconds (`ℚ`).  The source
  compares such strings lexicographically and converts them with
  `Date.parse`; on RFC-3339 `Z` strings both orders coincide.  The empty
  string default (`?? ""`) is modelled with `Option ℚ` (`none` compares
  below every timestamp, as `""` does).
* `Date.now()` is passed in as an explicit parameter `now`; the source reads
  the clock several times during one traversal, the embedding uses one
  instant.
* Channel references (`Map` keys, the `inChannel`/`outChannel` back
  references of forwards) are modelled as indices into the snapshot's
  channel list; the JS `Map` keyed by object identity becomes an
  association list in insertion order.
* The human-readable `reason` strings are kept as fields but their contents
  are abbreviated (no number interpolation); no control flow depends on
  them.
* Exceptions (`throw new Error`) are modelled with `Except String`.
-/

namespace LNO

/-- JavaScript's `Math.round`: round half away from zero towards +∞. -/
def mathRound (x : ℚ) : ℚ := ((⌊x + 1 / 2⌋ : ℤ) : ℚ)

/-- JavaScript's `Math.floor`. -/
def mathFloor (x : ℚ) : ℚ := ((⌊x⌋ : ℤ) : ℚ)

/-- Modelled from the spec: `src/info/getDays.ts` is not part of the provided
sources; §4.4.5 of the spec gives `elapsedDays = elapsed / 86_400_000`. -/
def getDays (milliseconds : ℚ) : ℚ := milliseconds / 86400000

/-- Modelled from the spec: `src/info/getMilliseconds.ts` is not part of the
provided sources; it is the inverse unit conversion of `getDays`. -/
def getMilliseconds (days : ℚ) : ℚ := days * 86400000

/-- The typed history events of a channel (`ChannelStats.ts`, re-exported
variants `InForward`, `OutForward`, `InRebalance`, `OutRebalance`,
`OutPayment`).  `outChannel` / `inChannel` are indices into the snapshot's
channel list (the source stores object references). -/
inductive Change where
  | inForward (time amount fee balance : ℚ) (outChannel : Option Nat)
  | outForward (time amount fee balance : ℚ) (inChannel : Option Nat)
  | inRebalance (time amount fee balance : ℚ)
  | outRebalance (time amount fee balance : ℚ)
  | outPayment (time amount fee balance : ℚ)
deriving DecidableEq, Repr

namespace Change

def time : Change → ℚ
  | inForward t _ _ _ _ => t
  | outForward t _ _ _ _ => t
  | inRebalance t _ _ _ => t
  | outRebalance t _ _ _ => t
  | outPayment t _ _ _ => t

def amount : Change → ℚ
  | inForward _ a _ _ _ => a
  | outForward _ a _ _ _ => a
  | inRebalance _ a _ _ => a
  | outRebalance _ a _ _ => a
  | outPayment _ a _ _ => a

def fee : Change → ℚ
  | inForward _ _ f _ _ => f
  | outForward _ _ f _ _ => f
  | inRebalance _ _ f _ => f
  | outRebalance _ _ f _ => f
  | outPayment _ _ f _ => f

def balance : Change → ℚ
  | inForward _ _ _ b _ => b
  | outForward _ _ _ b _ => b
  | inRebalance _ _ _ b => b
  | outRebalance _ _ _ b => b
  | outPayment _ _ _ b => b

/-- `change instanceof OutForward`. -/
def isOutForward : Change → Bool
  | outForward _ _ _ _ _ => true
  | _ => false

/-- `change instanceof InForward`. -/
def isInForward : Change → Bool
  | inForward _ _ _ _ _ => true
  | _ => false

/-- `change instanceof InRebalance`. -/
def isInRebalance : Change → Bool
  | inRebalance _ _ _ _ => true
  | _ => false

/-- The `inChannel` back reference of an `OutForward`. -/
def outForwardInChannel : Change → Option Nat
  | outForward _ _ _ _ c => c
  | _ => none

/-- The `outChannel` back reference of an `InForward`. -/
def inForwardOutChannel : Change → Option Nat
  | inForward _ _ _ _ c => c
  | _ => none

end Change

/-- The per-direction aggregate statistics of `IChannelStats`
(`{ count, totalTokens, maxTokens }`). -/
structure ForwardStats where
  count : Nat
  totalTokens : ℚ
  maxTokens : ℚ
deriving DecidableEq, Repr

/-- The immutable per-channel properties (`IChannelStats.properties`).
`openedAt` is the parsed timestamp in milliseconds. -/
structure ChannelProperties where
  id : String
  partnerAlias : Option String
  capacity : ℚ
  local_balance : ℚ
  fee_rate : ℚ
  base_fee : ℚ
  partnerFeeRate : Option ℚ
  openedAt : ℚ
deriving DecidableEq, Repr

/-- `IChannelStats`: properties, aggregates and the latest-first history. -/
structure ChannelStats where
  properties : ChannelProperties
  inForwards : ForwardStats
  outForwards : ForwardStats
  history : List Change
deriving DecidableEq, Repr

/-- `INodeStats`: the number of days covered by the data and the channel map
(modelled as a list in the map's insertion order). -/
structure NodeStats where
  days : ℚ
  channels : List ChannelStats
deriving DecidableEq, Repr

/-- The configuration variables consumed by `Actions.get` (`ActionsConfig`). -/
structure ActionsConfig where
  minChannelForwards : Nat
  minOutFeeForwardFraction : ℚ
  minChannelBalanceFraction : ℚ
  minRebalanceDistance : ℚ
  largestForwardMarginFraction : ℚ
  minFeeIncreaseDistance : ℚ
  feeIncreaseMultiplier : ℚ
  feeDecreaseWaitDays : ℚ
  minInflowFraction : ℚ
  maxFeeRate : ℚ
deriving DecidableEq, Repr

/-- `type Config = ActionsConfig & { days: number }`. -/
structure Config extends ActionsConfig where
  days : ℚ
deriving DecidableEq, Repr

/-- A proposed change (`interface Action`).  The source's `variable` field is
called `var` here (`variable` is a Lean keyword). -/
structure Action where
  entity : String
  id : Option String
  alias_ : Option String
  priority : ℚ
  var : String
  actual : ℚ
  target : ℚ
  max : ℚ
  reason : String
deriving DecidableEq, Repr

/-- `Actions.getTargetBalanceDistance`. -/
def getTargetBalanceDistance (balance target capacity : ℚ) : ℚ :=
  if balance ≤ target then balance / target - 1 else (balance - target) / (capacity - target)

/-- `Actions.getPriority`. -/
def getPriority (base distance minRebalanceDistance : ℚ) : ℚ :=
  base * mathFloor (|distance| / minRebalanceDistance)

/-- `Actions.getFeeRate`. -/
def getFeeRate (fee amount : ℚ) : ℚ := mathRound (fee / |amount| * 1000000)

/-- `Actions.filterHistory`: yield the changes satisfying `matches` until the
first change satisfying `done` (which is excluded; `done` is evaluated
first, exactly as in the generator). -/
def filterHistory (history : List Change) (matcher : Change → Bool) (done : Change → Bool) :
    List Change :=
  match history with
  | [] => []
  | c :: rest =>
    if done c then []
    else if matcher c then c :: filterHistory rest matcher done
    else filterHistory rest matcher done

/-- `Actions.filterBalanceAction`: drop actions with priority 0 (as a list,
the generator yields at most one element). -/
def filterBalanceAction (action : Action) : List Action :=
  if action.priority > 0 then [action] else []

/-- `Actions.getChannelBalanceAction`.  The `Number.isNaN(optimalBalance)`
test of the source is modelled as a zero test of the denominator: with
nonnegative token totals and positive capacity, `optimalBalance` is NaN
exactly when `inForwards.totalTokens + outForwards.totalTokens` is 0. -/
def getChannelBalanceAction (channel : ChannelStats) (config : Config) : Action :=
  let props := channel.properties
  let actual := props.local_balance
  let capacity := props.capacity
  let createAction := fun (targetBalance : ℚ) (reason : String) =>
    let target := mathRound targetBalance
    let distance := getTargetBalanceDistance actual target capacity
    let priority := getPriority 1 distance config.minRebalanceDistance
    { entity := "channel", id := some props.id, alias_ := props.partnerAlias, priority,
      var := "balance", actual, target, max := capacity, reason : Action }
  let optimalBalance := mathRound (channel.outForwards.totalTokens /
      (channel.inForwards.totalTokens + channel.outForwards.totalTokens) * capacity)
  if channel.inForwards.totalTokens + channel.outForwards.totalTokens = 0 ∨
      channel.inForwards.count + channel.outForwards.count < config.minChannelForwards then
    createAction (1 / 2 * capacity)
      "There are fewer forwards than required to predict future flow, defaulting to half the capacity."
  else
    let largestForwardMarginMultiplier := 1 + config.largestForwardMarginFraction
    let minLargestForwardBalance :=
      mathRound (channel.outForwards.maxTokens * largestForwardMarginMultiplier)
    let maxLargestForwardBalance :=
      mathRound (capacity - channel.inForwards.maxTokens * largestForwardMarginMultiplier)
    if minLargestForwardBalance > maxLargestForwardBalance then
      createAction (1 / 2 * capacity)
        "The sum of the largest incoming and outgoing forwards + margin exceeds the capacity, defaulting to half the capacity."
    else
      let minBalance := mathRound (config.minChannelBalanceFraction * capacity)
      if optimalBalance < minBalance then
        createAction minBalance "The optimal balance according to flow is below the minimum balance."
      else
        let maxBalance := capacity - minBalance
        if optimalBalance > maxBalance then
          createAction maxBalance "The optimal balance according to flow is above the maximum balance."
        else if optimalBalance < minLargestForwardBalance then
          createAction minLargestForwardBalance
            "The optimal balance according to flow is below the minimum balance to route the largest past outgoing forward."
        else if optimalBalance > maxLargestForwardBalance then
          createAction maxLargestForwardBalance
            "The optimal balance according to flow is above the maximum balance to route the largest past incoming forward."
        else
          createAction optimalBalance "This is the optimal balance according to flow."

/-- The state of one `Actions` instance: the combined config and the map from
channels to their balance actions (an association list in the insertion
order of the `Map` built by the constructor). -/
structure Actions where
  config : Config
  channels : List (ChannelStats × Action)
deriving Repr

/-- The `Actions` constructor. -/
def Actions.make (stats : NodeStats) (config : ActionsConfig) : Actions :=
  let fullConfig : Config := { toActionsConfig := config, days := stats.days }
  { config := fullConfig,
    channels := stats.channels.map fun channel =>
      (channel, getChannelBalanceAction channel fullConfig) }

/-- `Actions.getDistance`.  The source throws `"Channel not found!"` whenever
the map lookup fails or the stored action's `target` is falsy (that is, 0). -/
def Actions.getDistance (a : Actions) (i : Nat) (balance : ℚ) : Except String ℚ :=
  match a.channels[i]? with
  | none => .error "Channel not found!"
  | some (channel, act) =>
    if act.target = 0 then .error "Channel not found!"
    else .ok (getTargetBalanceDistance balance act.target channel.properties.capacity)

/-- `Actions.getCurrentDistance`. -/
def Actions.getCurrentDistance (a : Actions) (i : Nat) : Except String ℚ :=
  match a.channels[i]? with
  | none => .error "Channel not found!"
  | some (channel, _) => a.getDistance i channel.properties.local_balance

/-- `Actions.createFeeAction`. -/
def Actions.createFeeAction (a : Actions) (channel : ChannelStats) (target : ℚ)
    (reason : String) : Action :=
  { entity := "channel", id := some channel.properties.id,
    alias_ := channel.properties.partnerAlias, priority := 1, var := "feeRate",
    actual := channel.properties.fee_rate, target, max := a.config.maxFeeRate, reason }

/-- `Actions.checkCreateAction`: yield the fee action only when the new rate
is strictly below the currently set one. -/
def Actions.checkCreateAction (a : Actions) (channel : ChannelStats) (newFeeRate : ℚ)
    (newReason : String) : List Action :=
  if newFeeRate < channel.properties.fee_rate then [a.createFeeAction channel newFeeRate newReason]
  else []

/-- The walk of `getAverageRebalanceRate` inside `Actions.getMinFeeRate`:
`done` increments a counter on every `InRebalance` and stops at the third,
which is therefore *not* yielded (the generator checks `done` first). -/
def rebalanceWalk : List Change → Nat → List Change
  | [], _ => []
  | c :: rest, count =>
    if c.isInRebalance then
      if count + 1 = 3 then []
      else c :: rebalanceWalk rest (count + 1)
    else rebalanceWalk rest count

/-- `Actions.getMinFeeRate`.  The two `Number.isFinite` guards of the source
are modelled by their exact failure conditions: the rebalance-rate average
is non-finite iff no rebalance was collected, and the inflow fraction is
non-finite iff its denominator is 0. -/
def Actions.getMinFeeRate (a : Actions) (channel : ChannelStats) (reason : String) : ℚ × String :=
  let minRebalanceRates := (rebalanceWalk channel.history 0).map fun r => getFeeRate r.fee r.amount
  if minRebalanceRates.isEmpty then
    (0, "No rebalance in transactions were necessary, so the lowest sensible fee rate is 0.")
  else
    let rebalanceRate := minRebalanceRates.foldl (· + ·) 0 / (minRebalanceRates.length : ℚ)
    let inSum := channel.inForwards.totalTokens
    let outSum := channel.outForwards.totalTokens
    if outSum + inSum = 0 ∨ inSum / (outSum + inSum) > a.config.minInflowFraction then
      (0, "The inflow fraction of the total flow was above the minimum, so the lowest sensible fee rate is 0.")
    else
      let realPartnerFeeRate := channel.properties.partnerFeeRate.getD 0
      if rebalanceRate ≥ realPartnerFeeRate then
        (rebalanceRate, "The lowest sensible fee rate is the average paid for the most recent in rebalances.")
      else
        (realPartnerFeeRate, "The lowest sensible fee rate is the partner fee rate.")

/-- `Actions.createFeeDecreaseAction`: the pair holds the yielded actions and
the generator's return value (`true` iff `elapsedDays > 0`). -/
def Actions.createFeeDecreaseAction (a : Actions) (channel : ChannelStats)
    (feeRate elapsedMilliseconds : ℚ) (reason : String) : List Action × Bool :=
  let elapsedDays := getDays elapsedMilliseconds - a.config.feeDecreaseWaitDays
  if elapsedDays > 0 then
    let decreaseFraction := elapsedDays / (a.config.days - a.config.feeDecreaseWaitDays)
    let newFeeRate := mathRound (feeRate * (1 - decreaseFraction))
    let mfr := a.getMinFeeRate channel reason
    (a.checkCreateAction channel (max mfr.1 newFeeRate) mfr.2, true)
  else ([], false)

/-- `Actions.getRebalancedFeeDecreaseAction`. -/
def Actions.getRebalancedFeeDecreaseAction (a : Actions) (now : ℚ) (channel : ChannelStats)
    (currentDistance feeRate notBelowStart : ℚ) : List Action × Bool :=
  a.createFeeDecreaseAction channel feeRate (now - notBelowStart)
    "There have been no outgoing forwards since the balance has moved out of the below bounds zone."

/-- `Actions.getFeeDecreaseAction`. -/
def Actions.getFeeDecreaseAction (a : Actions) (now : ℚ) (channel : ChannelStats)
    (currentDistance : ℚ) (lastOut : Change) (lastOutFeeRate : ℚ) : List Action × Bool :=
  a.createFeeDecreaseAction channel lastOutFeeRate (now - lastOut.time)
    "The most recent outgoing forwards took place days ago and paid an average fee rate."

/-- The mutable accumulation of `Actions.getLastOutFeeRate`: walk the history
latest-first; on each `OutForward` add its amount to `total` and stop
(excluding that forward) as soon as the total *before* it already reached
`minAmount` (the source's `(total += c.amount) >= minAmount + c.amount`).
Returns the collected forwards and the final `total`. -/
def lastOutWalk (minAmount : ℚ) : List Change → ℚ → List Change × ℚ
  | [], total => ([], total)
  | c :: rest, total =>
    if c.isOutForward then
      let total' := total + c.amount
      if total' ≥ minAmount + c.amount then ([], total')
      else
        let step := lastOutWalk minAmount rest total'
        (c :: step.1, step.2)
    else lastOutWalk minAmount rest total

/-- `Actions.getLastOutFeeRate`. -/
def Actions.getLastOutFeeRate (a : Actions) (channel : ChannelStats) : Option ℚ :=
  let minAmount := channel.properties.capacity * a.config.minOutFeeForwardFraction
  let walk := lastOutWalk minAmount channel.history 0
  if walk.2 ≥ minAmount then
    let baseFees := (walk.1.length : ℚ) * channel.properties.base_fee
    some (getFeeRate ((walk.1.map Change.fee).foldl (· + ·) 0 - baseFees)
      ((walk.1.map Change.amount).foldl (· + ·) 0))
  else none

/-- `Actions.getIncreaseFraction`. -/
def Actions.getIncreaseFraction (a : Actions) (elapsedMilliseconds rawFraction : ℚ) : ℚ :=
  let isRecent := elapsedMilliseconds < 5 * 60 * 1000
  let elapsedDays := getDays elapsedMilliseconds * a.config.feeIncreaseMultiplier
  if isRecent then rawFraction else rawFraction * elapsedDays / a.config.days

/-- `Actions.getMaxIncreaseFeeAction`: build one candidate fee increase per
below-bounds outgoing forward and keep the one with the highest target
(`actions.reduce((p, c) => (p.target > c.target ? p : c))`; JS `reduce`
without seed throws on an empty array, modelled as `Except.error`). -/
def Actions.getMaxIncreaseFeeAction (a : Actions) (channel : ChannelStats)
    (currentDistance : ℚ) (forwards : List Change) (timeMilliseconds : ℚ) :
    Except String Action :=
  let getIncreaseFeeAction := fun (change : Change) =>
    let feeRate := getFeeRate (change.fee - channel.properties.base_fee) change.amount
    let elapsedMilliseconds := timeMilliseconds - change.time
    let rawFraction := |currentDistance| - a.config.minFeeIncreaseDistance
    let addFraction := a.getIncreaseFraction elapsedMilliseconds rawFraction
    let newFeeRate := min (max (mathRound (feeRate * (1 + addFraction))) 30) a.config.maxFeeRate
    a.createFeeAction channel newFeeRate
      "The outgoing forward contributed to the current distance from the target balance."
  match forwards.map getIncreaseFeeAction with
  | [] => .error "Reduce of empty array with no initial value"
  | p :: rest => .ok (rest.foldl (fun p c => if p.target > c.target then p else c) p)

/-- The per-inbound-channel statistics yielded by
`Actions.getAboveBoundsInflowStats` (the display-only `name` field is
omitted; it only feeds the reason string). -/
structure InflowStats where
  currentDistance : ℚ
  earliest : ℚ
  latest : ℚ
  channel : ℚ
deriving DecidableEq, Repr

/-- `Actions.getAboveBoundsInflowStats`.  The `getDistance` calls on the
inbound channel are inlined after the single validation that the source
performs on its first `getCurrentDistance` call (afterwards they cannot
throw for that channel). -/
def Actions.getAboveBoundsInflowStats (a : Actions) (now : ℚ) (forOutChannel inIdx : Nat) :
    Except String (List InflowStats) :=
  match a.channels[inIdx]? with
  | none => .error "Channel not found!"
  | some (inChannel, inBal) =>
    if inBal.target = 0 then .error "Channel not found!"
    else
      let distI := fun (b : ℚ) => getTargetBalanceDistance b inBal.target inChannel.properties.capacity
      let currentDistance := distI inChannel.properties.local_balance
      if currentDistance ≥ a.config.minFeeIncreaseDistance then
        let infs := filterHistory inChannel.history Change.isInForward
          fun c => decide (distI c.balance < a.config.minFeeIncreaseDistance)
        let st := infs.foldl
          (fun (s : ℚ × ℚ × ℚ) c =>
            if c.inForwardOutChannel = some forOutChannel then
              (min s.1 c.time, max s.2.1 c.time, s.2.2 - c.amount)
            else s)
          (now, 0, 0)
        if st.2.1 ≠ 0 then .ok [⟨currentDistance, st.1, st.2.1, st.2.2⟩] else .ok []
      else .ok []

/-- `Actions.getAllAboveBoundsInflowStats`. -/
def Actions.getAllAboveBoundsInflowStats (a : Actions) (now : ℚ) (outChannel : Nat) :
    List Nat → Except String (List InflowStats)
  | [] => .ok []
  | j :: rest =>
    match a.getAboveBoundsInflowStats now outChannel j with
    | .error e => .error e
    | .ok s =>
      match a.getAllAboveBoundsInflowStats now outChannel rest with
      | .error e => .error e
      | .ok more => .ok (s ++ more)

/-- `[...new Set(list)]`: keep the first occurrence of every element. -/
def dedupFirst : List Nat → List Nat
  | [] => []
  | x :: xs => x :: dedupFirst (xs.filter (· ≠ x))
termination_by l => l.length
decreasing_by
  simp only [List.length_cons]
  exact Nat.lt_succ_of_le (List.length_filter_le _ _)

/-- `Actions.getAboveBoundsFeeIncreaseAction`. -/
def Actions.getAboveBoundsFeeIncreaseAction (a : Actions) (now : ℚ) (channel : ChannelStats)
    (chIdx : Nat) (lastOutFeeRate : ℚ) (allOut : List Change) : Except String (List Action) :=
  let inChannels := dedupFirst (allOut.filterMap Change.outForwardInChannel)
  match a.getAllAboveBoundsInflowStats now chIdx inChannels with
  | .error e => .error e
  | .ok [] => .ok []
  | .ok (s0 :: srest) =>
    let earliestIsoTime := (srest.map InflowStats.earliest).foldl min s0.earliest
    let weighted := fun (s : InflowStats) => s.channel * s.currentDistance
    let totalOutflow :=
      ((allOut.filter fun c => decide (c.time ≥ earliestIsoTime)).map Change.amount).foldl (· + ·) 0
    let fraction := (srest.map weighted).foldl (· + ·) (weighted s0) / totalOutflow
    if fraction > a.config.minFeeIncreaseDistance then
      match a.getCurrentDistance chIdx with
      | .error e => .error e
      | .ok cd =>
        let increaseFraction := (fraction - a.config.minFeeIncreaseDistance) * |cd|
        let newFeeRate := min (mathRound (lastOutFeeRate * (1 + increaseFraction))) a.config.maxFeeRate
        if newFeeRate > channel.properties.fee_rate then
          .ok [a.createFeeAction channel newFeeRate
            "Total forwards incoming from above bounds channels contributed to the total outflow from this channel."]
        else .ok []
    else .ok []

/-- `Actions.getNoForwardsFeeAction`. -/
def Actions.getNoForwardsFeeAction (a : Actions) (now : ℚ) (channel : ChannelStats)
    (currentDistance feeRate : ℚ) : List Action :=
  if now - channel.properties.openedAt ≥ getMilliseconds a.config.days then
    [a.createFeeAction channel feeRate
      "Less than the required amount of outgoing forwards have been observed."]
  else []

/-- The `else` branch of `Actions.getFeeAction` (no outgoing forward, or the
last out fee rate was falsy). -/
def Actions.noForwardsCase (a : Actions) (now : ℚ) (channel : ChannelStats)
    (isBelowBounds : Bool) (currentDistance : ℚ) : List Action :=
  let newFeeRate := if isBelowBounds then a.config.maxFeeRate else 0
  if channel.properties.fee_rate ≠ newFeeRate then
    a.getNoForwardsFeeAction now channel currentDistance newFeeRate
  else []

/-- The `getIncreaseAction` closure inside `Actions.getFeeAction`.  The
`getDistance` calls for the subject channel are inlined after the single
validation the source performs on its first `getCurrentDistance` call. -/
def Actions.getIncreaseAction (a : Actions) (i : Nat) (channel : ChannelStats)
    (partialHistory : List Change) (timeMilliseconds : ℚ) : Except String Action :=
  match a.channels[i]? with
  | none => .error "Channel not found!"
  | some (_, balAct) =>
    if balAct.target = 0 then .error "Channel not found!"
    else
      let dist := fun (b : ℚ) => getTargetBalanceDistance b balAct.target channel.properties.capacity
      let belowOutForwards := filterHistory partialHistory Change.isOutForward
        fun c => decide (dist c.balance > -a.config.minFeeIncreaseDistance)
      match partialHistory, belowOutForwards with
      | c0 :: _, b0 :: brest =>
        a.getMaxIncreaseFeeAction channel (dist c0.balance) (b0 :: brest) timeMilliseconds
      | _, _ => .error "Unexpected empty history or no outgoing forwards found for channel!"

/-- `Actions.getFeeAction`.  Failures of `getCurrentDistance` / `getDistance`
for the subject channel are checked once up front (the source throws at the
first such call); `dist` is the validated pure distance.  The two falsy
sources of `lastOut && lastOutFeeRate` (no forward, or a rate of 0) both
fall to `noForwardsCase`. -/
def Actions.getFeeAction (a : Actions) (now : ℚ) (i : Nat) : Except String (List Action) :=
  match a.channels[i]? with
  | none => .error "Channel not found!"
  | some (channel, balAct) =>
    if balAct.target = 0 then .error "Channel not found!"
    else
      let dist := fun (b : ℚ) => getTargetBalanceDistance b balAct.target channel.properties.capacity
      let lastOut := channel.history.find? Change.isOutForward
      let lastOutFeeRate := a.getLastOutFeeRate channel
      let currentDistance := dist channel.properties.local_balance
      let isBelowBounds := currentDistance ≤ -a.config.minFeeIncreaseDistance
      match lastOut, lastOutFeeRate with
      | some lastOutF, some rate =>
        if rate = 0 then .ok (a.noForwardsCase now channel isBelowBounds currentDistance)
        else if isBelowBounds then
          match a.getIncreaseAction i channel channel.history now with
          | .error e => .error e
          | .ok action =>
            .ok (if action.target > channel.properties.fee_rate then [action] else [])
        else
          let notBelowChanges := filterHistory channel.history (fun _ => true)
            fun c => decide (dist c.balance ≤ -a.config.minFeeIncreaseDistance)
          let notBelowStart := notBelowChanges.getLast?.map Change.time
          let decRes : Except String (List Action × Bool) :=
            match notBelowStart with
            | some nbs =>
              if nbs > lastOutF.time then
                match a.getIncreaseAction i channel
                    (channel.history.drop notBelowChanges.length) nbs with
                | .error e => .error e
                | .ok incr =>
                  .ok (a.getRebalancedFeeDecreaseAction now channel currentDistance incr.target nbs)
              else .ok (a.getFeeDecreaseAction now channel currentDistance lastOutF rate)
            | none => .ok (a.getFeeDecreaseAction now channel currentDistance lastOutF rate)
          match decRes with
          | .error e => .error e
          | .ok (decActs, true) => .ok decActs
          | .ok (decActs, false) =>
            if currentDistance ≤ -a.config.minRebalanceDistance then
              match a.getAboveBoundsFeeIncreaseAction now channel i rate
                  (filterHistory channel.history Change.isOutForward fun _ => false) with
              | .error e => .error e
              | .ok above => .ok (decActs ++ above)
            else .ok decActs
      | _, _ => .ok (a.noForwardsCase now channel isBelowBounds currentDistance)

/-- `Actions.getFeeActions` over an explicit list of channel indices. -/
def Actions.getFeeActionsAux (a : Actions) (now : ℚ) : List Nat → Except String (List Action)
  | [] => .ok []
  | i :: rest =>
    match a.getFeeAction now i with
    | .error e => .error e
    | .ok acts =>
      match a.getFeeActionsAux now rest with
      | .error e => .error e
      | .ok more => .ok (acts ++ more)

/-- `Actions.getFeeActions`: one fee-action traversal per channel, in map
order. -/
def Actions.getFeeActions (a : Actions) (now : ℚ) : Except String (List Action) :=
  a.getFeeActionsAux now (List.range a.channels.length)

/-- The running state of the loop in `Actions.get`. -/
structure GetState where
  actual : ℚ
  target : ℚ
  max : ℚ
  out : List Action
deriving Repr

/-- The node-level balance action built by `Actions.get` after the loop, with
the sums written as list sums. -/
def Actions.nodeBalanceAction (a : Actions) : Action :=
  let balanceActions := a.channels.map Prod.snd
  let actual := (balanceActions.map Action.actual).sum
  let target := (balanceActions.map Action.target).sum
  let max := (balanceActions.map Action.max).sum
  { entity := "node", id := none, alias_ := none,
    priority := getPriority 4 (getTargetBalanceDistance actual target max)
      a.config.minRebalanceDistance,
    var := "balance", actual, target, max,
    reason := "This is the sum of the target balances of all channels." }

/-- One iteration of the loop in `Actions.get`: add the balance action's
`actual`/`target`/`max` to the running sums and append the filtered action. -/
def getStep (s : GetState) (balanceAction : Action) : GetState :=
  ⟨s.actual + balanceAction.actual, s.target + balanceAction.target,
    s.max + balanceAction.max, s.out ++ filterBalanceAction balanceAction⟩

/-- `Actions.get`: the loop accumulating `actual`/`target`/`max` and the
filtered balance actions, then the node action, then the fee actions. -/
def Actions.get (a : Actions) (now : ℚ) : Except String (List Action) :=
  let s := (a.channels.map Prod.snd).foldl getStep ⟨0, 0, 0, []⟩
  let distance := getTargetBalanceDistance s.actual s.target s.max
  let priority := getPriority 4 distance a.config.minRebalanceDistance
  let action : Action :=
    { entity := "node", id := none, alias_ := none, priority, var := "balance",
      actual := s.actual, target := s.target, max := s.max,
      reason := "This is the sum of the target balances of all channels." }
  match a.getFeeActions now with
  | .error e => .error e
  | .ok feeActions => .ok (s.out ++ filterBalanceAction action ++ feeActions)

/-! ## Concrete scenarios

Small concrete snapshots used for counterexamples and witnesses.  `cfgA` is
the reference CLI configuration of the repository (`main.ts`), except that
`minChannelForwards` is raised to 100 so that every channel's balance target
defaults to half its capacity. -/

def cfgA : ActionsConfig :=
  { minChannelForwards := 100, minOutFeeForwardFraction := 1/100,
    minChannelBalanceFraction := 1/4, minRebalanceDistance := 1/20,
    largestForwardMarginFraction := 1/10, minFeeIncreaseDistance := 3/10,
    feeIncreaseMultiplier := 3, feeDecreaseWaitDays := 4, minInflowFraction := 3/10,
    maxFeeRate := 2500 }

def cfgA' : Config := { toActionsConfig := cfgA, days := 30 }

def t1 : ℚ := 1000000000000

def nowA : ℚ := t1 + 60000

def props0 : ChannelProperties :=
  { id := "0x0", partnerAlias := none, capacity := 1000, local_balance := 400,
    fee_rate := 3, base_fee := 0, partnerFeeRate := none, openedAt := 0 }

/-- Channel 0 of scenario A: one recent outgoing forward of 100 sats that
paid 5 ppm, received through channel 1; local balance 400 of 1000. -/
def ch0 : ChannelStats :=
  { properties := props0, inForwards := ⟨0, 0, 0⟩, outForwards := ⟨1, 100, 100⟩,
    history := [.outForward t1 100 (1/2000) 400 (some 1)] }

def props1 : ChannelProperties :=
  { id := "0x1", partnerAlias := none, capacity := 1000, local_balance := 950,
    fee_rate := 0, base_fee := 0, partnerFeeRate := none, openedAt := 0 }

/-- Channel 1 of scenario A: far above bounds (distance 0.9); its one
incoming forward went out through channel 0. -/
def ch1 : ChannelStats :=
  { properties := props1, inForwards := ⟨1, 100, 100⟩, outForwards := ⟨0, 0, 0⟩,
    history := [.inForward t1 (-100) 0 950 (some 0)] }

/-- Scenario A: channel 0 is mildly depleted (distance -0.2, not below
bounds) and all its outflow came in through the above-bounds channel 1, so
`get` emits an above-bounds inflow fee increase for channel 0 with target 6
(5 ppm increased by 12 percent) — far below 30 ppm. -/
def actsA : Actions := Actions.make ⟨30, [ch0, ch1]⟩ cfgA

/-- The action stream of scenario A. -/
def outA : List Action := ((actsA.get nowA).toOption).getD []

def tB : ℚ := 1000000000000

def nowB : ℚ := tB + 10 * 86400000

def propsB : ChannelProperties :=
  { id := "0xb", partnerAlias := none, capacity := 1000, local_balance := 450,
    fee_rate := 10000, base_fee := 0, partnerFeeRate := none, openedAt := 0 }

/-- The channel of scenario B: the last outgoing forward (10 days before
`nowB`) paid 1000 ppm, the most recent incoming rebalance cost 5000 ppm, the
inflow fraction is 0.2 and the current fee rate is 10000 ppm. -/
def chB : ChannelStats :=
  { properties := propsB, inForwards := ⟨1, 25, 25⟩, outForwards := ⟨1, 100, 100⟩,
    history := [.outForward tB 100 (1/10) 450 none, .inRebalance (tB - 1000) 100 (1/2) 450] }

/-- Scenario B: the fee decrease candidate is 769 ppm but the rebalance-rate
floor of `getMinFeeRate` lifts the emitted target to 5000 ppm — twice the
configured `maxFeeRate` of 2500. -/
def actsB : Actions := Actions.make ⟨30, [chB]⟩ cfgA

/-- The action stream of scenario B. -/
def outB : List Action := ((actsB.get nowB).toOption).getD []

def nowC : ℚ := 1000000000000

def propsC : ChannelProperties :=
  { id := "0xc", partnerAlias := none, capacity := 1000, local_balance := 100,
    fee_rate := 0, base_fee := 0, partnerFeeRate := none, openedAt := nowC - 45 * 86400000 }

/-- The channel of scenario C: open for 45 days, no forwards at all, local
balance far below the target (distance -0.8). -/
def chC : ChannelStats :=
  { properties := propsC, inForwards := ⟨0, 0, 0⟩, outForwards := ⟨0, 0, 0⟩, history := [] }

/-- Scenario C: a long-open channel without outgoing forwards, below bounds,
so the no-forwards case proposes `maxFeeRate`. -/
def actsC : Actions := Actions.make ⟨30, [chC]⟩ cfgA

/-- The fee actions of channel 0 in scenario C. -/
def feeC : List Action := ((actsC.getFeeAction nowC 0).toOption).getD []

def propsD : ChannelProperties :=
  { id := "0xd", partnerAlias := none, capacity := 0, local_balance := 0,
    fee_rate := 5, base_fee := 0, partnerFeeRate := none, openedAt := 0 }

/-- The degenerate channel of scenario D: zero capacity, so its balance
target is 0 and `getDistance` throws. -/
def chD : ChannelStats :=
  { properties := propsD, inForwards := ⟨0, 0, 0⟩, outForwards := ⟨0, 0, 0⟩, history := [] }

/-- Scenario D: the balance target of channel 0 is 0. -/
def actsD : Actions := Actions.make ⟨30, [chD]⟩ cfgA

/-- Follows the spec's words (§4.4.1) for claim C7: walk the history
latest-first collecting `OutForward`s, stopping at the first forward before
which the accumulated total already reaches the threshold (that forward is
excluded). -/
def specOutFeeForwards (minAmount : ℚ) : List Change → ℚ → List Change
  | [], _ => []
  | c :: rest, acc =>
    if c.isOutForward then
      if acc ≥ minAmount then []
      else c :: specOutFeeForwards minAmount rest (acc + c.amount)
    else specOutFeeForwards minAmount rest acc

/-- The common shape of every fee action yielded by `Actions.getFeeAction`
for the channel `ch`: it is built by `createFeeAction`, and its target is
one of the four forms produced by the decision tree (maximum increase,
above-bounds increase, floored decrease, no-forwards default). -/
def FeeChar (a : Actions) (ch : ChannelStats) (act : Action) : Prop :=
  ∃ t s, act = a.createFeeAction ch t s ∧
    ((∃ r, t = min (max (mathRound r) 30) a.config.maxFeeRate) ∨
     (∃ r, t = min (mathRound r) a.config.maxFeeRate ∧ ch.properties.fee_rate < t) ∨
     (∃ s2 c, t = max (a.getMinFeeRate ch s2).1 c ∧ t < ch.properties.fee_rate) ∨
     t = a.config.maxFeeRate ∨ t = 0)

/-- The data-model invariants of §3 of the spec needed for the amended fee
bound: the current fee rate, the partner fee rate and all historical fees
are nonnegative. -/
def ChannelOK (ch : ChannelStats) : Prop :=
  0 ≤ ch.properties.fee_rate ∧ 0 ≤ ch.properties.partnerFeeRate.getD 0 ∧
  ∀ c ∈ ch.history, 0 ≤ c.fee

instance (ch : ChannelStats) : Decidable (ChannelOK ch) := by
  unfold ChannelOK
  infer_instance

/-- The fee actions of channel 0 in scenario A. -/
def feeA0 : List Action := ((actsA.getFeeAction nowA 0).toOption).getD []

/-- The maximum-increase action computed over the single below-bounds
forward of channel 0 in scenario A. -/
def maxIncA : Action :=
  ((actsA.getMaxIncreaseFeeAction ch0 (-(1/2))
    [.outForward t1 100 (1/2000) 400 (some 1)] nowA).toOption).getD
    (actsA.createFeeAction ch0 0 "")

/-! ## Helper lemmas -/

lemma foldl_add_eq_sum (l : List ℚ) (x : ℚ) : l.foldl (· + ·) x = x + l.sum := by
  induction l generalizing x with
  | nil => simp
  | cons c rest ih => simp only [List.foldl_cons, ih, List.sum_cons]; ring

lemma mathRound_nonneg {x : ℚ} (h : 0 ≤ x) : 0 ≤ mathRound x := by
  unfold mathRound
  have : (0 : ℤ) ≤ ⌊x + 1 / 2⌋ := by positivity
  exact_mod_cast this

lemma getFeeRate_nonneg {fee amount : ℚ} (h : 0 ≤ fee) : 0 ≤ getFeeRate fee amount := by
  unfold getFeeRate
  exact mathRound_nonneg (by positivity)

lemma rebalanceWalk_subset {c : Change} : ∀ {l : List Change} {n : Nat},
    c ∈ rebalanceWalk l n → c ∈ l := by
  intro l
  induction l with
  | nil => intro n h; simp [rebalanceWalk] at h
  | cons x rest ih =>
    intro n h
    unfold rebalanceWalk at h
    split at h
    · split at h
      · simp at h
      · rcases List.mem_cons.mp h with h | h
        · exact h ▸ List.mem_cons_self x rest
        · exact List.mem_cons_of_mem x (ih h)
    · exact List.mem_cons_of_mem x (ih h)

lemma getMinFeeRate_nonneg (a : Actions) (ch : ChannelStats) (s : String)
    (hfees : ∀ c ∈ ch.history, 0 ≤ c.fee)
    (hpartner : 0 ≤ ch.properties.partnerFeeRate.getD 0) :
    0 ≤ (a.getMinFeeRate ch s).1 := by
  simp only [Actions.getMinFeeRate]
  split
  · exact le_refl 0
  · split
    · exact le_refl 0
    · have hrates : ∀ x ∈ (rebalanceWalk ch.history 0).map
          (fun r => getFeeRate r.fee r.amount), 0 ≤ x := by
        intro x hx
        rcases List.mem_map.mp hx with ⟨r, hr, rfl⟩
        exact getFeeRate_nonneg (hfees r (rebalanceWalk_subset hr))
      have havg : 0 ≤ ((rebalanceWalk ch.history 0).map
          (fun r => getFeeRate r.fee r.amount)).foldl (· + ·) 0 /
          (((rebalanceWalk ch.history 0).map (fun r => getFeeRate r.fee r.amount)).length : ℚ) := by
        apply div_nonneg
        · rw [foldl_add_eq_sum, zero_add]
          exact List.sum_nonneg hrates
        · positivity
      split
      · exact havg
      · exact hpartner

lemma one_le_getPriority_of_pos {base d m : ℚ} (hb : 1 ≤ base)
    (h : 0 < getPriority base d m) : 1 ≤ getPriority base d m := by
  unfold getPriority mathFloor at h ⊢
  set k : ℤ := ⌊|d| / m⌋ with hk
  have hb0 : (0 : ℚ) < base := lt_of_lt_of_le one_pos hb
  have hk0 : (0 : ℚ) < (k : ℚ) := by
    by_contra hneg
    push_neg at hneg
    have : base * (k : ℚ) ≤ 0 := mul_nonpos_of_nonneg_of_nonpos (le_of_lt hb0) hneg
    linarith
  have hk1 : (1 : ℤ) ≤ k := by exact_mod_cast hk0
  have hk1q : (1 : ℚ) ≤ (k : ℚ) := by exact_mod_cast hk1
  nlinarith

lemma filterBalanceAction_mem {act ba : Action} :
    act ∈ filterBalanceAction ba ↔ 0 < ba.priority ∧ act = ba := by
  unfold filterBalanceAction
  split
  · simp_all
  · simp_all

lemma getChannelBalanceAction_priority_shape (ch : ChannelStats) (cfg : Config) :
    ∃ d, (getChannelBalanceAction ch cfg).priority = getPriority 1 d cfg.minRebalanceDistance ∧
      (getChannelBalanceAction ch cfg).var = "balance" := by
  simp only [getChannelBalanceAction]
  repeat' split
  all_goals exact ⟨_, rfl, rfl⟩

lemma foldl_maxTarget_mem (p : Action) (l : List Action) :
    l.foldl (fun p c => if p.target > c.target then p else c) p ∈ p :: l := by
  induction l generalizing p with
  | nil => simp
  | cons c rest ih =>
    simp only [List.foldl_cons]
    by_cases hc : p.target > c.target
    · simp only [hc, if_true]
      rcases List.mem_cons.mp (ih p) with h | h
      · rw [h]
        exact List.mem_cons_self p (c :: rest)
      · exact List.mem_cons_of_mem p (List.mem_cons_of_mem c h)
    · simp only [hc, if_false]
      rcases List.mem_cons.mp (ih c) with h | h
      · rw [h]
        exact List.mem_cons_of_mem p (List.mem_cons_self c rest)
      · exact List.mem_cons_of_mem p (List.mem_cons_of_mem c h)

lemma getMaxIncreaseFeeAction_ok_shape {a : Actions} {ch : ChannelStats} {cd : ℚ}
    {fwds : List Change} {tm : ℚ} {act : Action}
    (h : a.getMaxIncreaseFeeAction ch cd fwds tm = .ok act) :
    ∃ r s, act = a.createFeeAction ch (min (max (mathRound r) 30) a.config.maxFeeRate) s := by
  simp only [Actions.getMaxIncreaseFeeAction] at h
  split at h
  · exact absurd h (by simp)
  · rename_i p rest heq
    have hact : act ∈ p :: rest := by
      cases h
      exact foldl_maxTarget_mem p rest
    rw [← heq] at hact
    rcases List.mem_map.mp hact with ⟨fw, _, hfw⟩
    exact ⟨_, _, hfw.symm⟩

lemma getIncreaseAction_ok_shape {a : Actions} {i : Nat} {ch : ChannelStats}
    {ph : List Change} {tm : ℚ} {act : Action}
    (h : a.getIncreaseAction i ch ph tm = .ok act) :
    ∃ r s, act = a.createFeeAction ch (min (max (mathRound r) 30) a.config.maxFeeRate) s := by
  simp only [Actions.getIncreaseAction] at h
  split at h
  · exact absurd h (by simp)
  · split at h
    · exact absurd h (by simp)
    · split at h
      · exact getMaxIncreaseFeeAction_ok_shape h
      · exact absurd h (by simp)

lemma checkCreateAction_chars (a : Actions) (ch : ChannelStats) (nfr : ℚ) (s : String) :
    (a.checkCreateAction ch nfr s).length ≤ 1 ∧
    ∀ act ∈ a.checkCreateAction ch nfr s,
      act = a.createFeeAction ch nfr s ∧ nfr < ch.properties.fee_rate := by
  unfold Actions.checkCreateAction
  split
  · simp_all
  · simp

lemma createFeeDecreaseAction_chars (a : Actions) (ch : ChannelStats) (r ms : ℚ)
    (reason : String) :
    ((a.createFeeDecreaseAction ch r ms reason).2 = false →
      (a.createFeeDecreaseAction ch r ms reason).1 = []) ∧
    (a.createFeeDecreaseAction ch r ms reason).1.length ≤ 1 ∧
    ∀ act ∈ (a.createFeeDecreaseAction ch r ms reason).1, FeeChar a ch act := by
  simp only [Actions.createFeeDecreaseAction]
  split
  · refine ⟨fun hf => by simp at hf, (checkCreateAction_chars a ch _ _).1, fun act hact => ?_⟩
    obtain ⟨heq, hlt⟩ := (checkCreateAction_chars a ch _ _).2 act hact
    exact ⟨_, _, heq, Or.inr (Or.inr (Or.inl ⟨reason, _, rfl, hlt⟩))⟩
  · simp

lemma getNoForwardsFeeAction_chars (a : Actions) (now : ℚ) (ch : ChannelStats) (cd fr : ℚ) :
    (a.getNoForwardsFeeAction now ch cd fr).length ≤ 1 ∧
    ∀ act ∈ a.getNoForwardsFeeAction now ch cd fr, ∃ s, act = a.createFeeAction ch fr s := by
  unfold Actions.getNoForwardsFeeAction
  split
  · exact ⟨by simp, fun act hact => ⟨_, List.mem_singleton.mp hact⟩⟩
  · simp

lemma noForwardsCase_chars (a : Actions) (now : ℚ) (ch : ChannelStats) (bb : Bool) (cd : ℚ) :
    (a.noForwardsCase now ch bb cd).length ≤ 1 ∧
    ∀ act ∈ a.noForwardsCase now ch bb cd, FeeChar a ch act := by
  have main : ∀ fr : ℚ,
      (if ch.properties.fee_rate ≠ fr then a.getNoForwardsFeeAction now ch cd fr
        else []).length ≤ 1 ∧
      ∀ act ∈ (if ch.properties.fee_rate ≠ fr then a.getNoForwardsFeeAction now ch cd fr
        else []), ∃ s, act = a.createFeeAction ch fr s := by
    intro fr
    split
    · exact getNoForwardsFeeAction_chars a now ch cd fr
    · simp
  cases bb
  · have e : a.noForwardsCase now ch false cd =
        if ch.properties.fee_rate ≠ 0 then a.getNoForwardsFeeAction now ch cd 0 else [] := rfl
    rw [e]
    refine ⟨(main 0).1, fun act hact => ?_⟩
    obtain ⟨s, rfl⟩ := (main 0).2 act hact
    exact ⟨_, _, rfl, Or.inr (Or.inr (Or.inr (Or.inr rfl)))⟩
  · have e : a.noForwardsCase now ch true cd =
        if ch.properties.fee_rate ≠ a.config.maxFeeRate then
          a.getNoForwardsFeeAction now ch cd a.config.maxFeeRate else [] := rfl
    rw [e]
    refine ⟨(main a.config.maxFeeRate).1, fun act hact => ?_⟩
    obtain ⟨s, rfl⟩ := (main a.config.maxFeeRate).2 act hact
    exact ⟨_, _, rfl, Or.inr (Or.inr (Or.inr (Or.inl rfl)))⟩

lemma getAboveBoundsFeeIncreaseAction_ok_chars {a : Actions} {now : ℚ} {ch : ChannelStats}
    {idx : Nat} {r : ℚ} {allOut : List Change} {res : List Action}
    (h : a.getAboveBoundsFeeIncreaseAction now ch idx r allOut = .ok res) :
    res.length ≤ 1 ∧ ∀ act ∈ res, FeeChar a ch act := by
  simp only [Actions.getAboveBoundsFeeIncreaseAction] at h
  split at h
  · exact absurd h (by simp)
  · cases h
    simp
  · split at h
    · split at h
      · exact absurd h (by simp)
      · split at h
        · rename_i hgt
          cases h
          refine ⟨by simp, fun act hact => ?_⟩
          rcases List.mem_singleton.mp hact with rfl
          exact ⟨_, _, rfl, Or.inr (Or.inl ⟨_, rfl, hgt⟩)⟩
        · cases h
          simp
    · cases h
      simp

lemma getRebalancedFeeDecreaseAction_chars (a : Actions) (now : ℚ) (ch : ChannelStats)
    (cd fr nbs : ℚ) :
    ((a.getRebalancedFeeDecreaseAction now ch cd fr nbs).2 = false →
      (a.getRebalancedFeeDecreaseAction now ch cd fr nbs).1 = []) ∧
    (a.getRebalancedFeeDecreaseAction now ch cd fr nbs).1.length ≤ 1 ∧
    ∀ act ∈ (a.getRebalancedFeeDecreaseAction now ch cd fr nbs).1, FeeChar a ch act :=
  createFeeDecreaseAction_chars a ch fr (now - nbs) _

lemma getFeeDecreaseAction_chars (a : Actions) (now : ℚ) (ch : ChannelStats)
    (cd : ℚ) (lastOut : Change) (rate : ℚ) :
    ((a.getFeeDecreaseAction now ch cd lastOut rate).2 = false →
      (a.getFeeDecreaseAction now ch cd lastOut rate).1 = []) ∧
    (a.getFeeDecreaseAction now ch cd lastOut rate).1.length ≤ 1 ∧
    ∀ act ∈ (a.getFeeDecreaseAction now ch cd lastOut rate).1, FeeChar a ch act :=
  createFeeDecreaseAction_chars a ch rate (now - lastOut.time) _

/-- Master characterization of `Actions.getFeeAction`: when it succeeds it
yields at most one action, and every yielded action has the `FeeChar` shape
for the channel at index `i`. -/
lemma getFeeAction_ok_chars {a : Actions} {now : ℚ} {i : Nat} {out : List Action}
    (h : a.getFeeAction now i = .ok out) :
    out.length ≤ 1 ∧
    ∃ ch bal, a.channels[i]? = some (ch, bal) ∧ ∀ act ∈ out, FeeChar a ch act := by
  simp only [Actions.getFeeAction] at h
  split at h
  · exact absurd h (by simp)
  · rename_i channel balAct heq
    split at h
    · exact absurd h (by simp)
    · split at h
      · -- lastOut = some lastOutF, lastOutFeeRate = some rate
        rename_i lastOutF rate hlo hlor
        split at h
        · -- rate = 0: noForwardsCase
          cases h
          exact ⟨(noForwardsCase_chars a now channel _ _).1,
            channel, balAct, heq, (noForwardsCase_chars a now channel _ _).2⟩
        · split at h
          · -- below bounds: maximum increase
            split at h
            · exact absurd h (by simp)
            · rename_i action hga
              cases h
              constructor
              · split
                · simp
                · simp
              · refine ⟨channel, balAct, heq, fun act hact => ?_⟩
                split at hact
                · rcases List.mem_singleton.mp hact with rfl
                  obtain ⟨r, s, rfl⟩ := getIncreaseAction_ok_shape hga
                  exact ⟨_, _, rfl, Or.inl ⟨r, rfl⟩⟩
                · simp at hact
          · -- not below bounds: decrease, then possibly above-bounds increase
            split at h
            · exact absurd h (by simp)
            · -- decRes = .ok (decActs, true)
              rename_i decActs heqd
              cases h
              split at heqd
              · split at heqd
                · split at heqd
                  · exact absurd heqd (by simp)
                  · rw [Except.ok.injEq] at heqd
                    obtain ⟨_, hlen, hmem⟩ := getRebalancedFeeDecreaseAction_chars a now channel _ _ _
                    rw [heqd] at hlen hmem
                    exact ⟨hlen, channel, balAct, heq, hmem⟩
                · rw [Except.ok.injEq] at heqd
                  obtain ⟨_, hlen, hmem⟩ := getFeeDecreaseAction_chars a now channel _ _ _
                  rw [heqd] at hlen hmem
                  exact ⟨hlen, channel, balAct, heq, hmem⟩
              · rw [Except.ok.injEq] at heqd
                obtain ⟨_, hlen, hmem⟩ := getFeeDecreaseAction_chars a now channel _ _ _
                rw [heqd] at hlen hmem
                exact ⟨hlen, channel, balAct, heq, hmem⟩
            · -- decRes = .ok (decActs, false): decActs = [], maybe above-bounds
              rename_i decActs heqd
              have hdecnil : decActs = [] := by
                split at heqd
                · split at heqd
                  · split at heqd
                    · exact absurd heqd (by simp)
                    · rw [Except.ok.injEq] at heqd
                      obtain ⟨hf, _, _⟩ := getRebalancedFeeDecreaseAction_chars a now channel _ _ _
                      rw [heqd] at hf
                      exact hf rfl
                  · rw [Except.ok.injEq] at heqd
                    obtain ⟨hf, _, _⟩ := getFeeDecreaseAction_chars a now channel _ _ _
                    rw [heqd] at hf
                    exact hf rfl
                · rw [Except.ok.injEq] at heqd
                  obtain ⟨hf, _, _⟩ := getFeeDecreaseAction_chars a now channel _ _ _
                  rw [heqd] at hf
                  exact hf rfl
              subst hdecnil
              split at h
              · split at h
                · exact absurd h (by simp)
                · rename_i above hab
                  cases h
                  obtain ⟨hlen, hmem⟩ := getAboveBoundsFeeIncreaseAction_ok_chars hab
                  refine ⟨by simpa using hlen, channel, balAct, heq, fun act hact => ?_⟩
                  exact hmem act (by simpa using hact)
              · cases h
                exact ⟨by simp, channel, balAct, heq, by simp⟩
      · -- lastOut/lastOutFeeRate falsy: noForwardsCase
        cases h
        exact ⟨(noForwardsCase_chars a now channel _ _).1,
          channel, balAct, heq, (noForwardsCase_chars a now channel _ _).2⟩

lemma getFeeActionsAux_mem {a : Actions} {now : ℚ} {idxs : List Nat} {res : List Action}
    (h : a.getFeeActionsAux now idxs = .ok res) :
    ∀ act ∈ res, ∃ j l, j ∈ idxs ∧ a.getFeeAction now j = .ok l ∧ act ∈ l := by
  induction idxs generalizing res with
  | nil =>
    simp only [Actions.getFeeActionsAux] at h
    cases h
    simp
  | cons j rest ih =>
    simp only [Actions.getFeeActionsAux] at h
    split at h
    · exact absurd h (by simp)
    · rename_i acts hj
      split at h
      · exact absurd h (by simp)
      · rename_i more hmore
        cases h
        intro act hact
        rcases List.mem_append.mp hact with hl | hr
        · exact ⟨j, acts, List.mem_cons_self j rest, hj, hl⟩
        · obtain ⟨j2, l2, hj2, hok, hm⟩ := ih hmore act hr
          exact ⟨j2, l2, List.mem_cons_of_mem j hj2, hok, hm⟩

lemma getFeeActionsAux_decomp {a : Actions} {now : ℚ} {idxs : List Nat} {res : List Action}
    (h : a.getFeeActionsAux now idxs = .ok res) :
    ∃ ls : List (List Action), ls.length = idxs.length ∧ res = ls.flatten ∧
      ∀ (k j : Nat), idxs[k]? = some j →
        ∃ l : List Action, ls[k]? = some l ∧ a.getFeeAction now j = .ok l := by
  induction idxs generalizing res with
  | nil =>
    simp only [Actions.getFeeActionsAux] at h
    cases h
    exact ⟨[], rfl, by simp, by simp⟩
  | cons j rest ih =>
    simp only [Actions.getFeeActionsAux] at h
    split at h
    · exact absurd h (by simp)
    · rename_i acts hj
      split at h
      · exact absurd h (by simp)
      · rename_i more hmore
        cases h
        obtain ⟨ls, hlen, rfl, hidx⟩ := ih hmore
        refine ⟨acts :: ls, by simp [hlen], by simp, ?_⟩
        intro k j2 hk
        cases k with
        | zero =>
          simp only [List.getElem?_cons_zero, Option.some.injEq] at hk
          subst hk
          exact ⟨acts, by simp, hj⟩
        | succ k' =>
          simp only [List.getElem?_cons_succ] at hk ⊢
          exact hidx k' j2 hk

lemma getStep_foldl (l : List Action) (s : GetState) :
    l.foldl getStep s =
      ⟨s.actual + (l.map Action.actual).sum, s.target + (l.map Action.target).sum,
        s.max + (l.map Action.max).sum, s.out ++ (l.map filterBalanceAction).flatten⟩ := by
  induction l generalizing s with
  | nil => simp
  | cons ba rest ih =>
    simp only [List.foldl_cons, ih, List.map_cons, List.sum_cons, List.flatten_cons]
    simp [getStep, add_assoc]

lemma get_ok_decomp {a : Actions} {now : ℚ} {out : List Action}
    (h : a.get now = .ok out) :
    ∃ fees, a.getFeeActions now = .ok fees ∧
      out = ((a.channels.map Prod.snd).map filterBalanceAction).flatten ++
        filterBalanceAction a.nodeBalanceAction ++ fees := by
  simp only [Actions.get, getStep_foldl] at h
  split at h
  · exact absurd h (by simp)
  · rename_i fees hfees
    cases h
    refine ⟨fees, hfees, ?_⟩
    simp [Actions.nodeBalanceAction]

lemma make_channels_getElem (stats : NodeStats) (config : ActionsConfig) (i : Nat) :
    (Actions.make stats config).channels[i]? =
      (stats.channels[i]?).map fun ch =>
        (ch, getChannelBalanceAction ch ⟨config, stats.days⟩) := by
  simp [Actions.make, List.getElem?_map]

lemma make_channels_snd {stats : NodeStats} {config : ActionsConfig}
    {p : ChannelStats × Action} (hp : p ∈ (Actions.make stats config).channels) :
    p.2 = getChannelBalanceAction p.1 ⟨config, stats.days⟩ := by
  simp only [Actions.make, List.mem_map] at hp
  obtain ⟨ch, _, rfl⟩ := hp
  rfl

lemma getCurrentDistance_ok {a : Actions} {i : Nat} {ch : ChannelStats} {bal : Action}
    (h1 : a.channels[i]? = some (ch, bal)) (h2 : bal.target ≠ 0) :
    a.getCurrentDistance i =
      .ok (getTargetBalanceDistance ch.properties.local_balance bal.target
        ch.properties.capacity) := by
  simp [Actions.getCurrentDistance, Actions.getDistance, h1, h2]

@[simp] lemma createFeeAction_target (a : Actions) (ch : ChannelStats) (t : ℚ) (s : String) :
    (a.createFeeAction ch t s).target = t := rfl

@[simp] lemma createFeeAction_priority (a : Actions) (ch : ChannelStats) (t : ℚ) (s : String) :
    (a.createFeeAction ch t s).priority = 1 := rfl

@[simp] lemma createFeeAction_actual (a : Actions) (ch : ChannelStats) (t : ℚ) (s : String) :
    (a.createFeeAction ch t s).actual = ch.properties.fee_rate := rfl

@[simp] lemma createFeeAction_var (a : Actions) (ch : ChannelStats) (t : ℚ) (s : String) :
    (a.createFeeAction ch t s).var = "feeRate" := rfl

@[simp] lemma createFeeAction_entity (a : Actions) (ch : ChannelStats) (t : ℚ) (s : String) :
    (a.createFeeAction ch t s).entity = "channel" := rfl

lemma nodeBalanceAction_priority_shape (a : Actions) :
    ∃ d, a.nodeBalanceAction.priority = getPriority 4 d a.config.minRebalanceDistance :=
  ⟨_, rfl⟩

/-! ## Claims -/

/-- C3: if `inForwards.count + outForwards.count < minChannelForwards` or
`inForwards.totalTokens + outForwards.totalTokens = 0`, the channel's
balance action targets `round(0.5 * capacity)`. -/
theorem c3_insufficient_data_target (ch : ChannelStats) (cfg : Config)
    (h : ch.inForwards.count + ch.outForwards.count < cfg.minChannelForwards ∨
      ch.inForwards.totalTokens + ch.outForwards.totalTokens = 0) :
    (getChannelBalanceAction ch cfg).target = mathRound (1 / 2 * ch.properties.capacity) := by
  simp only [getChannelBalanceAction]
  rw [if_pos h.symm]

theorem c3_witness :
    (ch0.inForwards.count + ch0.outForwards.count < cfgA'.minChannelForwards ∨
      ch0.inForwards.totalTokens + ch0.outForwards.totalTokens = 0) ∧
    (getChannelBalanceAction ch0 cfgA').target = mathRound (1 / 2 * ch0.properties.capacity) :=
  ⟨Or.inl (by decide), c3_insufficient_data_target ch0 cfgA' (Or.inl (by decide))⟩

/-- C9: one call to `Actions.getFeeAction` yields at most one action for its
channel, so a single `Actions.get()` emits at most one fee action per
channel. -/
theorem c9_at_most_one_fee_action (a : Actions) (now : ℚ) (i : Nat) (out : List Action)
    (h : a.getFeeAction now i = .ok out) : out.length ≤ 1 :=
  (getFeeAction_ok_chars h).1

theorem c9_witness : actsA.getFeeAction nowA 0 = .ok feeA0 ∧ feeA0.length ≤ 1 :=
  ⟨by with_unfolding_all rfl,
    c9_at_most_one_fee_action actsA nowA 0 feeA0 (by with_unfolding_all rfl)⟩

/-- C4: whenever `elapsedDays > 0`, the decrease helper reports `true`, the
candidate is `round(R * (1 - decreaseFraction))`, the emitted target is
`max(getMinFeeRate, candidate)` (hence never below `getMinFeeRate`), and an
action is emitted only if that target is strictly below the current
`feeRate`. -/
theorem c4_fee_decrease_spec (a : Actions) (ch : ChannelStats)
    (feeRate elapsedMilliseconds : ℚ) (reason : String)
    (h : 0 < getDays elapsedMilliseconds - a.config.feeDecreaseWaitDays) :
    (a.createFeeDecreaseAction ch feeRate elapsedMilliseconds reason).2 = true ∧
    (a.createFeeDecreaseAction ch feeRate elapsedMilliseconds reason).1 =
      a.checkCreateAction ch
        (max (a.getMinFeeRate ch reason).1
          (mathRound (feeRate *
            (1 - (getDays elapsedMilliseconds - a.config.feeDecreaseWaitDays) /
              (a.config.days - a.config.feeDecreaseWaitDays)))))
        (a.getMinFeeRate ch reason).2 ∧
    ∀ act ∈ (a.createFeeDecreaseAction ch feeRate elapsedMilliseconds reason).1,
      act.target =
        max (a.getMinFeeRate ch reason).1
          (mathRound (feeRate *
            (1 - (getDays elapsedMilliseconds - a.config.feeDecreaseWaitDays) /
              (a.config.days - a.config.feeDecreaseWaitDays)))) ∧
      (a.getMinFeeRate ch reason).1 ≤ act.target ∧
      act.target < ch.properties.fee_rate := by
  have e : a.createFeeDecreaseAction ch feeRate elapsedMilliseconds reason =
      (a.checkCreateAction ch
        (max (a.getMinFeeRate ch reason).1
          (mathRound (feeRate *
            (1 - (getDays elapsedMilliseconds - a.config.feeDecreaseWaitDays) /
              (a.config.days - a.config.feeDecreaseWaitDays)))))
        (a.getMinFeeRate ch reason).2, true) := by
    simp only [Actions.createFeeDecreaseAction]
    rw [if_pos h]
  rw [e]
  refine ⟨rfl, rfl, fun act hact => ?_⟩
  obtain ⟨rfl, hlt⟩ := (checkCreateAction_chars a ch _ _).2 act hact
  exact ⟨rfl, by simp [le_max_left], by simpa using hlt⟩

theorem c4_witness :
    0 < getDays 864000000 - actsB.config.feeDecreaseWaitDays ∧
    (actsB.createFeeDecreaseAction chB 1000 864000000 "r").2 = true ∧
    ∀ act ∈ (actsB.createFeeDecreaseAction chB 1000 864000000 "r").1,
      act.target =
        max (actsB.getMinFeeRate chB "r").1
          (mathRound (1000 *
            (1 - (getDays 864000000 - actsB.config.feeDecreaseWaitDays) /
              (actsB.config.days - actsB.config.feeDecreaseWaitDays)))) ∧
      (actsB.getMinFeeRate chB "r").1 ≤ act.target ∧
      act.target < chB.properties.fee_rate := by
  have h : 0 < getDays 864000000 - actsB.config.feeDecreaseWaitDays := by
    with_unfolding_all decide
  have hc := c4_fee_decrease_spec actsB chB 1000 864000000 "r" h
  exact ⟨h, hc.1, hc.2.2⟩

lemma lastOutWalk_fst (minAmount : ℚ) (l : List Change) (t : ℚ) :
    (lastOutWalk minAmount l t).1 = specOutFeeForwards minAmount l t := by
  induction l generalizing t with
  | nil => rfl
  | cons c rest ih =>
    simp only [lastOutWalk, specOutFeeForwards]
    split
    · by_cases hacc : t ≥ minAmount
      · rw [if_pos (by linarith), if_pos hacc]
      · rw [if_neg (by intro hc; exact hacc (by linarith)), if_neg hacc]
        simp [ih]
    · exact ih t

lemma outAmounts_sum_nonneg (l : List Change)
    (hpos : ∀ c ∈ l, c.isOutForward = true → 0 ≤ c.amount) :
    0 ≤ ((l.filter Change.isOutForward).map Change.amount).sum := by
  apply List.sum_nonneg
  intro x hx
  rcases List.mem_map.mp hx with ⟨c, hc, rfl⟩
  rcases List.mem_filter.mp hc with ⟨hmem, hof⟩
  exact hpos c hmem hof

lemma lastOutWalk_snd_ge (minAmount : ℚ) (l : List Change) (t : ℚ)
    (hpos : ∀ c ∈ l, c.isOutForward = true → 0 ≤ c.amount) :
    minAmount ≤ (lastOutWalk minAmount l t).2 ↔
      minAmount ≤ t + ((l.filter Change.isOutForward).map Change.amount).sum := by
  induction l generalizing t with
  | nil => simp [lastOutWalk]
  | cons c rest ih =>
    have hrest : ∀ x ∈ rest, x.isOutForward = true → 0 ≤ x.amount :=
      fun x hx => hpos x (List.mem_cons_of_mem c hx)
    simp only [lastOutWalk]
    split
    · rename_i hof
      have hc : 0 ≤ c.amount := hpos c (List.mem_cons_self c rest) hof
      have hsum : 0 ≤ ((rest.filter Change.isOutForward).map Change.amount).sum :=
        outAmounts_sum_nonneg rest hrest
      rw [List.filter_cons_of_pos hof, List.map_cons, List.sum_cons]
      by_cases hacc : t ≥ minAmount
      · rw [if_pos (by linarith)]
        constructor
        · intro _
          linarith
        · intro _
          simpa using by linarith
      · rw [if_neg (by intro hcon; exact hacc (by linarith))]
        rw [ih (t + c.amount) hrest]
        constructor
        · intro hx
          linarith
        · intro hx
          linarith
    · rename_i hof
      rw [List.filter_cons_of_neg (by simpa using hof)]
      exact ih t hrest

/-- C7: `getLastOutFeeRate` is `none` exactly when the summed `OutForward`
amounts fall short of `minOutFeeForwardFraction * capacity`, and otherwise
returns the rate computed from the accumulated latest-first `OutForward`
prefix that stops at the first forward before which the accumulated total
already reaches the threshold.  (Amounts of outgoing forwards are positive
by the data model, giving the nonnegativity hypothesis.) -/
theorem c7_last_out_fee_rate (a : Actions) (ch : ChannelStats)
    (hpos : ∀ c ∈ ch.history, c.isOutForward = true → 0 ≤ c.amount) :
    (a.getLastOutFeeRate ch = none ↔
      ((ch.history.filter Change.isOutForward).map Change.amount).sum <
        ch.properties.capacity * a.config.minOutFeeForwardFraction) ∧
    (ch.properties.capacity * a.config.minOutFeeForwardFraction ≤
        ((ch.history.filter Change.isOutForward).map Change.amount).sum →
      a.getLastOutFeeRate ch =
        some (getFeeRate
          (((specOutFeeForwards
                (ch.properties.capacity * a.config.minOutFeeForwardFraction)
                ch.history 0).map Change.fee).foldl (· + ·) 0 -
            ((specOutFeeForwards
                (ch.properties.capacity * a.config.minOutFeeForwardFraction)
                ch.history 0).length : ℚ) * ch.properties.base_fee)
          (((specOutFeeForwards
              (ch.properties.capacity * a.config.minOutFeeForwardFraction)
              ch.history 0).map Change.amount).foldl (· + ·) 0))) := by
  have hiff := lastOutWalk_snd_ge
    (ch.properties.capacity * a.config.minOutFeeForwardFraction) ch.history 0 hpos
  rw [zero_add] at hiff
  constructor
  · simp only [Actions.getLastOutFeeRate]
    split
    · rename_i hge
      exact ⟨fun hx => absurd hx (by simp), fun hlt => absurd (hiff.mp hge) (by linarith)⟩
    · rename_i hge
      refine ⟨fun _ => ?_, fun _ => rfl⟩
      by_contra hge2
      push_neg at hge2
      exact hge (hiff.mpr hge2)
  · intro hle
    simp only [Actions.getLastOutFeeRate]
    rw [if_pos (hiff.mpr hle), lastOutWalk_fst]

theorem c7_witness :
    (∀ c ∈ chB.history, c.isOutForward = true → 0 ≤ c.amount) ∧
    (chB.properties.capacity * actsB.config.minOutFeeForwardFraction ≤
      ((chB.history.filter Change.isOutForward).map Change.amount).sum) ∧
    actsB.getLastOutFeeRate chB =
      some (getFeeRate
        (((specOutFeeForwards
              (chB.properties.capacity * actsB.config.minOutFeeForwardFraction)
              chB.history 0).map Change.fee).foldl (· + ·) 0 -
          ((specOutFeeForwards
              (chB.properties.capacity * actsB.config.minOutFeeForwardFraction)
              chB.history 0).length : ℚ) * chB.properties.base_fee)
        (((specOutFeeForwards
            (chB.properties.capacity * actsB.config.minOutFeeForwardFraction)
            chB.history 0).map Change.amount).foldl (· + ·) 0)) := by
  have h1 : ∀ c ∈ chB.history, c.isOutForward = true → 0 ≤ c.amount := by
    with_unfolding_all decide
  have h2 : chB.properties.capacity * actsB.config.minOutFeeForwardFraction ≤
      ((chB.history.filter Change.isOutForward).map Change.amount).sum := by
    with_unfolding_all decide
  exact ⟨h1, h2, (c7_last_out_fee_rate actsB chB h1).2 h2⟩

/-- Membership in the no-forwards fallback: the channel must have been open
for `config.days`, the target is `maxFeeRate` when below bounds (the `Bool`
argument) and 0 otherwise, and it differs from the current fee rate. -/
lemma noForwardsCase_mem {a : Actions} {now : ℚ} {ch : ChannelStats} {b : Bool} {cd : ℚ}
    {act : Action} (hact : act ∈ a.noForwardsCase now ch b cd) :
    getMilliseconds a.config.days ≤ now - ch.properties.openedAt ∧
    act.target = (if b = true then a.config.maxFeeRate else 0) ∧
    act.target ≠ ch.properties.fee_rate := by
  cases b
  · have e : a.noForwardsCase now ch false cd =
        if ch.properties.fee_rate ≠ 0 then a.getNoForwardsFeeAction now ch cd 0 else [] := rfl
    rw [e] at hact
    split at hact
    · rename_i hne
      unfold Actions.getNoForwardsFeeAction at hact
      split at hact
      · rename_i hopen
        rcases List.mem_singleton.mp hact with rfl
        exact ⟨hopen, by simp, by simpa using fun hh => hne hh.symm⟩
      · simp at hact
    · simp at hact
  · have e : a.noForwardsCase now ch true cd =
        if ch.properties.fee_rate ≠ a.config.maxFeeRate then
          a.getNoForwardsFeeAction now ch cd a.config.maxFeeRate else [] := rfl
    rw [e] at hact
    split at hact
    · rename_i hne
      unfold Actions.getNoForwardsFeeAction at hact
      split at hact
      · rename_i hopen
        rcases List.mem_singleton.mp hact with rfl
        exact ⟨hopen, by simp, by simpa using fun hh => hne hh.symm⟩
      · simp at hact
    · simp at hact

/-- C10: `getDistance` fails with `"Channel not found!"` exactly when the
channel is absent from the internal map or its computed balance-action
target is 0; otherwise it returns the target-balance distance.
Consequently, `getFeeAction` for a channel whose balance target is 0 aborts
with this error. -/
theorem c10_get_distance_error (stats : NodeStats) (config : ActionsConfig) (i : Nat) (b : ℚ) :
    ((Actions.make stats config).getDistance i b = .error "Channel not found!" ↔
      stats.channels[i]? = none ∨
      ∃ ch, stats.channels[i]? = some ch ∧
        (getChannelBalanceAction ch ⟨config, stats.days⟩).target = 0) ∧
    (∀ ch, stats.channels[i]? = some ch →
      (getChannelBalanceAction ch ⟨config, stats.days⟩).target ≠ 0 →
      (Actions.make stats config).getDistance i b =
        .ok (getTargetBalanceDistance b
          (getChannelBalanceAction ch ⟨config, stats.days⟩).target ch.properties.capacity)) ∧
    (∀ now ch, stats.channels[i]? = some ch →
      (getChannelBalanceAction ch ⟨config, stats.days⟩).target = 0 →
      (Actions.make stats config).getFeeAction now i = .error "Channel not found!") := by
  have hm := make_channels_getElem stats config i
  cases hch : stats.channels[i]? with
  | none =>
    rw [hch] at hm
    refine ⟨?_, ?_, ?_⟩
    · simp [Actions.getDistance, hm, hch]
    · intro ch hc
      simp [hch] at hc
    · intro now ch hc
      simp [hch] at hc
  | some ch =>
    rw [hch] at hm
    simp only [Option.map_some'] at hm
    by_cases ht : (getChannelBalanceAction ch ⟨config, stats.days⟩).target = 0
    · refine ⟨?_, ?_, ?_⟩
      · have he : (Actions.make stats config).getDistance i b =
            .error "Channel not found!" := by
          simp [Actions.getDistance, hm, ht]
        rw [he]
        exact ⟨fun _ => Or.inr ⟨ch, rfl, ht⟩, fun _ => rfl⟩
      · intro ch2 hc2 ht2
        rw [Option.some.injEq] at hc2
        exact absurd (hc2 ▸ ht) ht2
      · intro now ch2 _ _
        simp [Actions.getFeeAction, hm, ht]
    · refine ⟨?_, ?_, ?_⟩
      · have he : (Actions.make stats config).getDistance i b =
            .ok (getTargetBalanceDistance b
              (getChannelBalanceAction ch ⟨config, stats.days⟩).target
              ch.properties.capacity) := by
          simp [Actions.getDistance, hm, ht]
        rw [he]
        constructor
        · intro hx
          exact absurd hx (by simp)
        · rintro (hx | ⟨ch2, hc2, ht2⟩)
          · exact absurd hx (by simp)
          · rw [Option.some.injEq] at hc2
            exact absurd (hc2 ▸ ht2) ht
      · intro ch2 hc2 _
        rw [Option.some.injEq] at hc2
        subst hc2
        simp [Actions.getDistance, hm, ht]
      · intro now ch2 hc2 ht2
        rw [Option.some.injEq] at hc2
        exact absurd (hc2 ▸ ht2) ht

theorem c10_witness :
    (Actions.make ⟨30, [chD]⟩ cfgA).getDistance 0 5 = .error "Channel not found!" ∧
    (Actions.make ⟨30, [chD]⟩ cfgA).getFeeAction 0 0 = .error "Channel not found!" := by
  have h := c10_get_distance_error ⟨30, [chD]⟩ cfgA 0 5
  refine ⟨h.1.mpr (Or.inr ⟨chD, by with_unfolding_all rfl, by with_unfolding_all decide⟩), ?_⟩
  exact h.2.2 0 chD (by with_unfolding_all rfl) (by with_unfolding_all decide)

/-- C8: when a channel has no `OutForward` in its history, or its last-out
fee rate could not be computed, any fee action it yields requires the
channel to have been open for at least `config.days` days, targets
`maxFeeRate` when below bounds and 0 otherwise, and is emitted only when
that target differs from the current `feeRate`. -/
theorem c8_no_forwards_case (a : Actions) (now : ℚ) (i : Nat) (ch : ChannelStats) (bal : Action)
    (hch : a.channels[i]? = some (ch, bal))
    (hnf : ch.history.find? Change.isOutForward = none ∨ a.getLastOutFeeRate ch = none)
    (out : List Action) (h : a.getFeeAction now i = .ok out) :
    ∀ act ∈ out,
      getMilliseconds a.config.days ≤ now - ch.properties.openedAt ∧
      act.target ≠ ch.properties.fee_rate ∧
      ∃ cd, a.getCurrentDistance i = .ok cd ∧
        act.target =
          if cd ≤ -a.config.minFeeIncreaseDistance then a.config.maxFeeRate else 0 := by
  simp only [Actions.getFeeAction] at h
  split at h
  · exact absurd h (by simp)
  · rename_i channel balAct heq
    have hpair := heq.symm.trans hch
    rw [Option.some.injEq, Prod.mk.injEq] at hpair
    obtain ⟨rfl, rfl⟩ := hpair
    split at h
    · exact absurd h (by simp)
    · rename_i ht
      split at h
      · rename_i lastOutF rate hfind hrate
        rcases hnf with hnf | hnf
        · rw [hnf] at hfind
          exact absurd hfind (by simp)
        · rw [hnf] at hrate
          exact absurd hrate (by simp)
      · cases h
        intro act hact
        have hcd := getCurrentDistance_ok heq ht
        obtain ⟨hopen, htar, hne⟩ := noForwardsCase_mem hact
        refine ⟨hopen, hne, _, hcd, ?_⟩
        rw [htar]
        by_cases hbb : getTargetBalanceDistance channel.properties.local_balance
            balAct.target channel.properties.capacity ≤ -a.config.minFeeIncreaseDistance
        · simp [hbb]
        · simp [hbb]

theorem c8_witness :
    actsC.channels[0]? = some (chC, getChannelBalanceAction chC cfgA') ∧
    chC.history.find? Change.isOutForward = none ∧
    actsC.getFeeAction nowC 0 = .ok feeC ∧
    ∀ act ∈ feeC,
      getMilliseconds actsC.config.days ≤ nowC - chC.properties.openedAt ∧
      act.target ≠ chC.properties.fee_rate ∧
      ∃ cd, actsC.getCurrentDistance 0 = .ok cd ∧
        act.target =
          if cd ≤ -actsC.config.minFeeIncreaseDistance then actsC.config.maxFeeRate else 0 := by
  have h1 : actsC.channels[0]? = some (chC, getChannelBalanceAction chC cfgA') := by
    with_unfolding_all rfl
  have h3 : actsC.getFeeAction nowC 0 = .ok feeC := by with_unfolding_all rfl
  exact ⟨h1, rfl, h3,
    c8_no_forwards_case actsC nowC 0 chC (getChannelBalanceAction chC cfgA') h1
      (Or.inl rfl) feeC h3⟩

/-- C1: every action emitted by `Actions.get` has priority at least 1
(priority-0 actions are filtered out by `filterBalanceAction`, the
priorities are integer multiples of the base, and fee actions always carry
priority 1). -/
theorem c1_emitted_priority_ge_one (stats : NodeStats) (config : ActionsConfig) (now : ℚ)
    (out : List Action) (h : (Actions.make stats config).get now = .ok out) :
    ∀ act ∈ out, 1 ≤ act.priority := by
  obtain ⟨fees, hfees, rfl⟩ := get_ok_decomp h
  intro act hact
  rcases List.mem_append.mp hact with hact2 | hfee
  · rcases List.mem_append.mp hact2 with hbal | hnode
    · rcases List.mem_flatten.mp hbal with ⟨l, hl, hal⟩
      rcases List.mem_map.mp hl with ⟨ba, hba, rfl⟩
      obtain ⟨hpos, rfl⟩ := filterBalanceAction_mem.mp hal
      rcases List.mem_map.mp hba with ⟨p, hp, rfl⟩
      have hsnd := make_channels_snd hp
      obtain ⟨d, hd, _⟩ :=
        getChannelBalanceAction_priority_shape p.1 ⟨config, stats.days⟩
      rw [hsnd] at hpos ⊢
      rw [hd] at hpos ⊢
      exact one_le_getPriority_of_pos le_rfl hpos
    · obtain ⟨hpos, rfl⟩ := filterBalanceAction_mem.mp hnode
      obtain ⟨d, hd⟩ := nodeBalanceAction_priority_shape (Actions.make stats config)
      rw [hd] at hpos ⊢
      exact one_le_getPriority_of_pos (by norm_num) hpos
  · obtain ⟨j, l, _, hok, hal⟩ := getFeeActionsAux_mem hfees act hfee
    obtain ⟨_, ch, bal, _, hmem⟩ := getFeeAction_ok_chars hok
    obtain ⟨t, s2, rfl, _⟩ := hmem act hal
    simp

theorem c1_witness :
    actsA.get nowA = .ok outA ∧ ∀ act ∈ outA, 1 ≤ act.priority := by
  have h : actsA.get nowA = .ok outA := by with_unfolding_all rfl
  exact ⟨h, c1_emitted_priority_ge_one ⟨30, [ch0, ch1]⟩ cfgA nowA outA h⟩

/-- C2: the stream of one `Actions.get` call decomposes as: for each channel
in snapshot map order its balance action when its priority is positive,
then the node balance action when its priority is positive, then the fee
actions of each channel in the same order.  In particular every emitted
channel balance action precedes the node balance action, which precedes
every fee action. -/
theorem c2_emission_order (stats : NodeStats) (config : ActionsConfig) (now : ℚ)
    (out : List Action) (h : (Actions.make stats config).get now = .ok out) :
    ∃ fees : List (List Action),
      fees.length = stats.channels.length ∧
      (∀ k : Nat, k < stats.channels.length →
        ∃ l : List Action, fees[k]? = some l ∧
          (Actions.make stats config).getFeeAction now k = .ok l) ∧
      out = (stats.channels.map fun ch =>
          filterBalanceAction (getChannelBalanceAction ch ⟨config, stats.days⟩)).flatten ++
        filterBalanceAction (Actions.make stats config).nodeBalanceAction ++ fees.flatten := by
  obtain ⟨feeflat, hfees, rfl⟩ := get_ok_decomp h
  obtain ⟨ls, hlen, rfl, hidx⟩ := getFeeActionsAux_decomp hfees
  have hchan_len : (Actions.make stats config).channels.length = stats.channels.length := by
    simp [Actions.make]
  refine ⟨ls, by rw [hlen, List.length_range, hchan_len], ?_, ?_⟩
  · intro k hk
    have hr : (List.range (Actions.make stats config).channels.length)[k]? = some k := by
      rw [List.getElem?_range (by rw [hchan_len]; exact hk)]
    exact hidx k k hr
  · have hmaps : (Actions.make stats config).channels.map Prod.snd =
        stats.channels.map fun ch => getChannelBalanceAction ch ⟨config, stats.days⟩ := by
      simp [Actions.make, List.map_map]
    rw [hmaps, List.map_map]
    rfl

theorem c2_witness :
    actsA.get nowA = .ok outA ∧
    ∃ fees : List (List Action),
      fees.length = 2 ∧
      (∀ k : Nat, k < 2 →
        ∃ l : List Action, fees[k]? = some l ∧ actsA.getFeeAction nowA k = .ok l) ∧
      outA = ([ch0, ch1].map fun ch =>
          filterBalanceAction (getChannelBalanceAction ch ⟨cfgA, 30⟩)).flatten ++
        filterBalanceAction actsA.nodeBalanceAction ++ fees.flatten := by
  have h : actsA.get nowA = .ok outA := by with_unfolding_all rfl
  exact ⟨h, c2_emission_order ⟨30, [ch0, ch1]⟩ cfgA nowA outA h⟩

/-- C5 counterexample: in scenario B, `Actions.get` emits a fee action (the
rebalance-floored decrease) whose target 5000 exceeds `maxFeeRate = 2500`,
refuting `0 <= target <= maxFeeRate` for emitted fee actions. -/
theorem c5_counterexample :
    actsB.config.maxFeeRate = 2500 ∧
    actsB.get nowB = .ok outB ∧
    outB.any (fun act => act.var == "feeRate" &&
      decide (actsB.config.maxFeeRate < act.target)) = true :=
  ⟨by with_unfolding_all rfl, by with_unfolding_all rfl, by with_unfolding_all rfl⟩

/-- C5 amended: under the data-model invariants (nonnegative current fee
rate, partner fee rate and historical fees) and `0 ≤ maxFeeRate`, every fee
action emitted by `Actions.get` has `0 ≤ target ≤ max maxFeeRate actual` —
increase and no-forwards targets stay at or below `maxFeeRate`, while
decrease targets are only bounded by the channel's current fee rate (its
`actual`). -/
theorem c5_amended_fee_target_bounds (stats : NodeStats) (config : ActionsConfig) (now : ℚ)
    (out : List Action) (hmax : 0 ≤ config.maxFeeRate)
    (hok : ∀ ch ∈ stats.channels, ChannelOK ch)
    (h : (Actions.make stats config).get now = .ok out) :
    ∀ act ∈ out, act.var = "feeRate" →
      0 ≤ act.target ∧ act.target ≤ max config.maxFeeRate act.actual := by
  obtain ⟨fees, hfees, rfl⟩ := get_ok_decomp h
  intro act hact hvar
  rcases List.mem_append.mp hact with hact2 | hfee
  · exfalso
    rcases List.mem_append.mp hact2 with hbal | hnode
    · rcases List.mem_flatten.mp hbal with ⟨l, hl, hal⟩
      rcases List.mem_map.mp hl with ⟨ba, hba, rfl⟩
      obtain ⟨_, rfl⟩ := filterBalanceAction_mem.mp hal
      rcases List.mem_map.mp hba with ⟨p, hp, rfl⟩
      have hsnd := make_channels_snd hp
      obtain ⟨_, _, hv⟩ := getChannelBalanceAction_priority_shape p.1 ⟨config, stats.days⟩
      rw [hsnd, hv] at hvar
      exact absurd hvar (by decide)
    · obtain ⟨_, rfl⟩ := filterBalanceAction_mem.mp hnode
      have hv : (Actions.make stats config).nodeBalanceAction.var = "balance" := rfl
      rw [hv] at hvar
      exact absurd hvar (by decide)
  · obtain ⟨j, l, _, hok2, hal⟩ := getFeeActionsAux_mem hfees act hfee
    obtain ⟨_, ch, bal, hchj, hmem⟩ := getFeeAction_ok_chars hok2
    have hchmem : ch ∈ stats.channels := by
      have hm := make_channels_getElem stats config j
      rw [hchj] at hm
      cases hs : stats.channels[j]? with
      | none =>
        rw [hs] at hm
        exact absurd hm (by simp)
      | some ch2 =>
        rw [hs] at hm
        simp only [Option.map_some', Option.some.injEq, Prod.mk.injEq] at hm
        rw [hm.1]
        exact List.getElem?_mem hs
    obtain ⟨hfr, hpr, hfees2⟩ := hok ch hchmem
    obtain ⟨t, s2, rfl, hform⟩ := hmem act hal
    simp only [createFeeAction_target, createFeeAction_actual]
    rcases hform with ⟨r, rfl⟩ | ⟨r, rfl, hgt⟩ | ⟨s3, c, rfl, hlt⟩ | rfl | rfl
    · constructor
      · have h30 : (0 : ℚ) ≤ max (mathRound r) 30 :=
          le_trans (by norm_num) (le_max_right _ _)
        exact le_min h30 hmax
      · exact le_trans (min_le_right _ _) (le_max_left _ _)
    · constructor
      · exact le_trans hfr (le_of_lt hgt)
      · exact le_trans (min_le_right _ _) (le_max_left _ _)
    · constructor
      · exact le_trans (getMinFeeRate_nonneg _ ch s3 hfees2 hpr) (le_max_left _ _)
      · exact le_trans (le_of_lt hlt) (le_max_right _ _)
    · exact ⟨hmax, le_max_left _ _⟩
    · exact ⟨le_refl 0, le_trans hmax (le_max_left _ _)⟩

theorem c5_witness :
    (0 ≤ cfgA.maxFeeRate) ∧ (∀ ch ∈ ([ch0, ch1] : List ChannelStats), ChannelOK ch) ∧
    actsA.get nowA = .ok outA ∧
    ∀ act ∈ outA, act.var = "feeRate" →
      0 ≤ act.target ∧ act.target ≤ max cfgA.maxFeeRate act.actual := by
  have h0 : 0 ≤ cfgA.maxFeeRate := by with_unfolding_all decide
  have h1 : ∀ ch ∈ ([ch0, ch1] : List ChannelStats), ChannelOK ch := by
    with_unfolding_all decide
  have h : actsA.get nowA = .ok outA := by with_unfolding_all rfl
  exact ⟨h0, h1, h, c5_amended_fee_target_bounds ⟨30, [ch0, ch1]⟩ cfgA nowA outA h0 h1 h⟩

/-- C6 counterexample: in scenario A, `Actions.get` emits a fee-increase
action (target 6 > actual 3, from the above-bounds inflow branch) whose
target is below 30 ppm although `maxFeeRate = 2500 ≥ 30`, refuting the
30 ppm floor for the above-bounds inflow fee increase. -/
theorem c6_counterexample :
    (30 : ℚ) ≤ actsA.config.maxFeeRate ∧
    actsA.get nowA = .ok outA ∧
    outA.any (fun act => act.var == "feeRate" && decide (act.actual < act.target) &&
      decide (act.target < 30)) = true :=
  ⟨by with_unfolding_all decide, by with_unfolding_all rfl, by with_unfolding_all rfl⟩

/-- C6 amended: the 30 ppm floor holds for the maximum-increase action over
below-bounds forwards (its target is at least 30 unless `maxFeeRate < 30`,
in which case it equals `maxFeeRate`); the above-bounds inflow increase is
only capped at `maxFeeRate` and may fall below 30 (see
the counterexample). -/
theorem c6_amended_max_increase_floor (a : Actions) (ch : ChannelStats) (cd : ℚ)
    (fwds : List Change) (tm : ℚ) (act : Action)
    (h : a.getMaxIncreaseFeeAction ch cd fwds tm = .ok act) :
    (30 ≤ a.config.maxFeeRate → 30 ≤ act.target) ∧
    (a.config.maxFeeRate < 30 → act.target = a.config.maxFeeRate) := by
  obtain ⟨r, s, rfl⟩ := getMaxIncreaseFeeAction_ok_shape h
  simp only [createFeeAction_target]
  constructor
  · intro hge
    exact le_min (le_max_right _ _) hge
  · intro hlt
    exact min_eq_right (le_trans (le_of_lt hlt) (le_max_right _ _))

theorem c6_witness :
    actsA.getMaxIncreaseFeeAction ch0 (-(1/2))
      [.outForward t1 100 (1/2000) 400 (some 1)] nowA = .ok maxIncA ∧
    (30 ≤ actsA.config.maxFeeRate → 30 ≤ maxIncA.target) ∧
    (actsA.config.maxFeeRate < 30 → maxIncA.target = actsA.config.maxFeeRate) := by
  have h : actsA.getMaxIncreaseFeeAction ch0 (-(1/2))
      [.outForward t1 100 (1/2000) 400 (some 1)] nowA = .ok maxIncA := by
    with_unfolding_all rfl
  exact ⟨h, c6_amended_max_increase_floor actsA ch0 (-(1/2)) _ nowA maxIncA h⟩

end LNO
